import Mathlib

/-!
Verification development for the GO-PCA signature module.

The definitions below are a shallow embedding of `src/gopca/signature.py`
(class `GOPCASignature`) and of the reordering core of
`src/gopca/scripts/extract_signature_matrix.py` (function `main`).

Modelling conventions:
* Python byte strings are `List Char` (identifiers and labels are ASCII).
* `numpy` arrays are `NDArray`: a row-major flat list of exact rationals
  plus a shape and the `writeable` flag.  Exact rationals idealize IEEE-754
  doubles; `%.1e` / `%.1f` formatting is implemented over `ℚ` with
  round-half-to-even.
* CPython 2.7 (64-bit) hashing of `str` and `tuple` is implemented
  faithfully (`pyHashBytes`, `pyHashTuple`); it is deterministic because
  CPython 2.7 does not randomize string hashes by default.  The hash of a
  numpy `buffer` (`hash(X.data)`) depends only on the raw bytes of the
  array, hence only on the flattened data, never on the shape; it is
  modelled by a deterministic function of the flattened entries.
* Raised exceptions are `Except PyErr` results.
* Real-valued statistics (`np.corrcoef`, `np.median`) are modelled over
  `ℝ`; a NaN result is modelled as `Option.none`.
-/

/-- Python byte-string from a Lean string literal. -/
def strL (s : String) : List Char := s.data

/-- `2 ^ 64`, the modulus of CPython's 64-bit hash arithmetic. -/
def M64 : ℕ := 2 ^ 64

/-- CPython 2.7 string hash (64-bit), as an unsigned value below `M64`:
`x = s[0] << 7; for c in s: x = (1000003 * x) ^ c; x ^= len(s)`,
with the final `-1 → -2` adjustment.  The empty string hashes to 0. -/
def pyHashBytes : List ℕ → ℕ
  | [] => 0
  | b :: bs =>
    let x := (b :: bs).foldl (fun x c => ((1000003 * x) % M64) ^^^ c) ((b <<< 7) % M64)
    let x1 := (x ^^^ (b :: bs).length) % M64
    if x1 = M64 - 1 then M64 - 2 else x1

/-- Hash of a Python `str` (ASCII bytes). -/
def pyHashStr (s : List Char) : ℕ := pyHashBytes (s.map Char.toNat)

/-- CPython 2.7 tuple hash (64-bit), over the member hashes:
`x = 0x345678; mult = 1000003; for y in hs: x = (x ^ y) * mult;
mult += 82520 + 2 * remaining; x += 97531`, with the `-1 → -2` adjustment. -/
def pyHashTuple (hs : List ℕ) : ℕ :=
  let step : ℕ × ℕ × ℕ → ℕ → ℕ × ℕ × ℕ := fun acc y =>
    let rem := acc.2.2 - 1
    (((acc.1 ^^^ y) * acc.2.1) % M64, (acc.2.1 + 82520 + rem + rem) % M64, rem)
  let r := hs.foldl step (3430008, 1000003, hs.length)
  let x1 := (r.1 + 97531) % M64
  if x1 = M64 - 1 then M64 - 2 else x1

/-- Hash of the tuple `self.genes` — a tuple of strings. -/
def genesTupleHash (gs : List (List Char)) : ℕ := pyHashTuple (gs.map pyHashStr)

/-- Deterministic stand-in for the CPython hash of an (idealized) float:
a function of the exact rational value. -/
def qHash (q : ℚ) : ℕ :=
  pyHashTuple [q.num.natAbs % M64, if q.num < 0 then 1 else 0, q.den % M64]

/-- Reinterpret an unsigned 64-bit hash as CPython's signed result
(the value printed by `%d`). -/
def signedOfU64 (x : ℕ) : ℤ := if x < 2 ^ 63 then (x : ℤ) else (x : ℤ) - 2 ^ 64

/-- Decimal digits of `n`, most significant first; `fuel`-structured so that
it reduces by kernel computation.  `fuel ≥ n` always suffices. -/
def natDigitsGo : ℕ → ℕ → List Char
  | 0, _ => []
  | fuel + 1, n =>
    if n = 0 then [] else natDigitsGo fuel (n / 10) ++ [Char.ofNat (48 + n % 10)]

/-- Decimal rendering of a natural number (Python `%d`). -/
def natStr (n : ℕ) : List Char := if n = 0 then ['0'] else natDigitsGo (n + 1) n

/-- Decimal rendering of an integer (Python `%d`). -/
def intStr (i : ℤ) : List Char := if i < 0 then '-' :: natStr (-i).toNat else natStr i.toNat

/-- Decode a digit string back to a natural number (left inverse of `natStr`,
used to prove that decimal rendering is injective). -/
def decodeDigits (s : List Char) : ℕ := s.foldl (fun a c => 10 * a + (c.toNat - 48)) 0

/-- Python exception kinds raised by the modelled code. -/
inductive PyErr where
  | typeError
  | valueError
  | assertionError
deriving DecidableEq

/-- A numpy array: row-major flattened data, shape, `writeable` flag. -/
structure NDArray where
  shape : List ℕ
  data : List ℚ
  writeable : Bool
deriving DecidableEq

/-- `X.copy()`: a fresh array with the same content; a fresh copy is
writeable. -/
def npCopy (a : NDArray) : NDArray := { a with writeable := true }

/-- Item assignment `a[i] = v`: numpy raises `ValueError` when the array is
not writeable. -/
def npSetItem (a : NDArray) (i : ℕ) (v : ℚ) : Except PyErr NDArray :=
  if a.writeable then .ok { a with data := a.data.set i v } else .error .valueError

/-- A GO term record; `signature.py` reads the tuple positions
`term[0]` (id), `term[2]` (domain) and `term[3]` (name). -/
structure GOTerm where
  tid : List Char
  src : List Char
  domain : List Char
  name : List Char
deriving DecidableEq

/-- Modelled from the spec: the class `go_enrichment.GOTermEnrichment` is not
under `src/`; only its fields consumed by `signature.py` (`term`, `pval`,
`escore`, `K`, `N`, `ranks`, `escore_pval_thresh`) and the count `k` of the
spec's EnrichmentResult are modelled.  The E-score is `none` when it is
undefined (p-value not below `psi`). -/
structure GOTermEnrichment where
  term : GOTerm
  pval : ℚ
  escore : Option ℚ
  k : ℕ
  K : ℕ
  N : ℕ
  ranks : List ℕ
  escorePvalThresh : ℚ
deriving DecidableEq

/-- Modelled from the spec: `GOTermEnrichment.__hash__` is not under `src/`;
per the spec the representation is structural and deterministic, so
`hash(self.enr)` is modelled as a deterministic function of the record's
content. -/
def enrHash (e : GOTermEnrichment) : ℕ :=
  pyHashTuple [pyHashStr e.term.tid, pyHashStr e.term.src, pyHashStr e.term.domain,
    pyHashStr e.term.name, qHash e.pval,
    (match e.escore with | none => 0 | some v => 1 + qHash v),
    e.k % M64, e.K % M64, e.N % M64,
    pyHashTuple (e.ranks.map (fun r => r % M64)), qHash e.escorePvalThresh]

/-- Hash of the buffer `self.X.data`: the buffer exposes the raw bytes of the
array, so the hash depends only on the flattened data — not on the shape and
not on the `writeable` flag. -/
def bufHash (a : NDArray) : ℕ := pyHashTuple (a.data.map qHash)

/-- The `GOPCASignature` value object of `signature.py`. -/
structure GOPCASignature where
  genes : List (List Char)
  X : NDArray
  pc : ℤ
  enr : GOTermEnrichment
deriving DecidableEq

/-- `GOPCASignature.__init__`: stores `tuple(genes)`, a private copy of `X`
with the `writeable` flag cleared, `pc` and `enr`. -/
def mkGOPCASignature (genes : List (List Char)) (X : NDArray) (pc : ℤ)
    (enr : GOTermEnrichment) : GOPCASignature :=
  let Xc := npCopy X
  { genes := genes, X := { Xc with writeable := false }, pc := pc, enr := enr }

/-- `GOPCASignature.__setstate__`: restores the attribute dictionary and
clears the `writeable` flag of the restored expression matrix. -/
def setstateSig (d : GOPCASignature) : GOPCASignature :=
  { d with X := { d.X with writeable := false } }

/-- `GOPCASignature._abbrev`: the fixed ordered table of
(pattern, replacement) pairs used in label generation. -/
def abbrevTable : List (List Char × List Char) :=
  [(strL "positive ", strL "pos. "), (strL "negative ", strL "neg. "),
   (strL "interferon-", strL "IFN-"), (strL "proliferation", strL "prolif."),
   (strL "signaling", strL "signal.")]

/-- One pass of literal-pattern substitution (`re.sub` with a literal
pattern): scan left to right, replace each non-overlapping occurrence.
`fuel`-structured (each step consumes at least one character) so that it
reduces by kernel computation; `fuel ≥ length of the string` suffices. -/
def replaceGo (pat rep : List Char) : ℕ → List Char → List Char
  | _, [] => []
  | 0, s => s
  | fuel + 1, c :: rest =>
    if pat ≠ [] ∧ pat.isPrefixOf (c :: rest) then
      rep ++ replaceGo pat rep fuel ((c :: rest).drop pat.length)
    else
      c :: replaceGo pat rep fuel rest

/-- `re.sub(pat, rep, s)` for a literal pattern `pat`. -/
def replaceAllL (s pat rep : List Char) : List Char := replaceGo pat rep s.length s

/-- The abbreviation loop of `get_label`: each table entry applied in
sequence to the term name. -/
def applyAbbrev (name : List Char) : List Char :=
  abbrevTable.foldl (fun n ab => replaceAllL n ab.1 ab.2) name

/-- Python slice `s[:i]`, including the negative-index semantics. -/
def pySliceTo (s : List Char) (i : ℤ) : List Char :=
  if 0 ≤ i then s.take i.toNat else s.take (s.length - min s.length i.natAbs)

/-- The term-name processing of `get_label`: abbreviations, then — when a
positive maximum is configured and exceeded — `term_name[:(max-3)] + '...'`. -/
def processName (name : List Char) (maxNameLen : ℤ) : List Char :=
  let n := applyAbbrev name
  if 0 < maxNameLen ∧ maxNameLen < (n.length : ℤ) then
    pySliceTo n (maxNameLen - 3) ++ strL "..."
  else n

/-- Round a rational to the nearest integer, ties to even (the rounding of
C `printf` conversions in the exact model). -/
def rheInt (q : ℚ) : ℤ :=
  let f := ⌊q⌋
  let r := q - (f : ℚ)
  if r < 1/2 then f else if 1/2 < r then f + 1 else if f % 2 = 0 then f else f + 1

/-- Python `'%.1f' % q` over the exact model. -/
def fmt1f (q : ℚ) : List Char :=
  let n := rheInt (q * 10)
  if n < 0 then '-' :: (natStr ((-n).toNat / 10) ++ strL "." ++ natStr ((-n).toNat % 10))
  else natStr (n.toNat / 10) ++ strL "." ++ natStr (n.toNat % 10)

/-- Floor of the base-10 logarithm of a natural number (`fuel`-structured so
that it reduces by kernel computation; `fuel ≥ n` suffices). -/
def natLog10Go : ℕ → ℕ → ℕ
  | 0, _ => 0
  | fuel + 1, n => if n < 10 then 0 else natLog10Go fuel (n / 10) + 1

/-- Floor of the base-10 logarithm of a natural number. -/
def natLog10 (n : ℕ) : ℕ := natLog10Go n n

/-- Decimal exponent of a positive rational: the `e` with `10^e ≤ q < 10^(e+1)`. -/
def exp10 (q : ℚ) : ℤ :=
  let e : ℤ := (natLog10 q.num.natAbs : ℤ) - (natLog10 q.den : ℤ)
  if q < 10 ^ e then e - 1 else if q < 10 ^ (e + 1) then e else e + 1

/-- Two-digit zero-padded exponent field of `%.1e`. -/
def pad2 (n : ℕ) : List Char := if n < 10 then '0' :: natStr n else natStr n

/-- `%.1e` for a positive rational: one mantissa decimal, signed two-digit
exponent. -/
def fmtE1pos (q : ℚ) : List Char :=
  let e := exp10 q
  let m := rheInt (q / 10 ^ e * 10)
  let m2 := if 100 ≤ m then 10 else m.toNat
  let e2 := if 100 ≤ m then e + 1 else e
  natStr (m2 / 10) ++ strL "." ++ natStr (m2 % 10) ++ strL "e" ++
    (if e2 < 0 then strL "-" else strL "+") ++ pad2 e2.natAbs

/-- Python `'%.1e' % q` over the exact model. -/
def fmtE1 (q : ℚ) : List Char :=
  if q = 0 then strL "0.0e+00"
  else if q < 0 then '-' :: fmtE1pos (-q) else fmtE1pos q

/-- `GOPCASignature.get_label(max_name_length, include_stats, include_id,
include_pval, include_domain)`.  The `e=` and `p=` fields are both set inside
the `include_pval` branch of the source, the `e=` field additionally guarded
by `escore is not None`; the bracket is `' [%d:%d/%d%s%s]' % (pc, k, K,
e_str, p_str)`. -/
def getLabel (s : GOPCASignature) (maxNameLen : ℤ)
    (includeStats includeId includePval includeDomain : Bool) : List Char :=
  let termName := processName s.enr.term.name maxNameLen
  let termStr := if includeDomain then s.enr.term.domain ++ strL ": " ++ termName else termName
  let termStr2 := if includeId then termStr ++ strL " (" ++ s.enr.term.tid ++ strL ")" else termStr
  let eStr := if includePval then
      (match s.enr.escore with | some e => strL ", e=" ++ fmt1f e | none => []) else []
  let pStr := if includePval then strL ", p=" ++ fmtE1 s.enr.pval else []
  let statsStr := if includeStats then
      strL " [" ++ intStr s.pc ++ strL ":" ++ natStr s.genes.length ++ strL "/" ++
        natStr s.enr.K ++ eStr ++ pStr ++ strL "]"
    else []
  termStr2 ++ statsStr

/-- `GOPCASignature.__repr__`: asserts the matrix is frozen, then formats
`'<GOPCASignature: %s (p=%.1e; e=%.1f; genes hash=%d; enr hash=%d, matrix
hash=%d>'`; formatting a `None` E-score with `%.1f` raises `TypeError`. -/
def pyRepr (s : GOPCASignature) : Except PyErr (List Char) :=
  if s.X.writeable then .error .assertionError else
  match s.enr.escore with
  | none => .error .typeError
  | some e =>
    .ok (strL "<GOPCASignature: " ++ getLabel s 0 true false false true ++
      strL " (p=" ++ fmtE1 s.enr.pval ++ strL "; e=" ++ fmt1f e ++
      strL "; genes hash=" ++ intStr (signedOfU64 (genesTupleHash s.genes)) ++
      strL "; enr hash=" ++ intStr (signedOfU64 (enrHash s.enr)) ++
      strL ", matrix hash=" ++ intStr (signedOfU64 (bufHash s.X)) ++ strL ">")

/-- `GOPCASignature.__str__`: `'<GOPCASignature "%s" (p-value %.1e / E-score
%.1fx)>'`; no assertion, but `%.1f` on a `None` E-score raises `TypeError`. -/
def pyStrOf (s : GOPCASignature) : Except PyErr (List Char) :=
  match s.enr.escore with
  | none => .error .typeError
  | some e =>
    .ok (strL "<GOPCASignature \"" ++ getLabel s 0 true false false true ++
      strL "\" (p-value " ++ fmtE1 s.enr.pval ++ strL " / E-score " ++
      fmt1f e ++ strL "x)>")

/-- `GOPCASignature.__hash__`: `hash(repr(self))` — the CPython string hash of
the repr string; an exception from `repr` propagates. -/
def pyHashSig (s : GOPCASignature) : Except PyErr ℕ :=
  match pyRepr s with
  | .error err => .error err
  | .ok r => .ok (pyHashStr r)

/-- `GOPCASignature.__eq__`: same type, then `repr(self) == repr(other)`
(the left repr is evaluated first, as in Python; an exception propagates). -/
def pyEq (s t : GOPCASignature) : Except PyErr Bool :=
  match pyRepr s with
  | .error err => .error err
  | .ok r =>
    match pyRepr t with
    | .error err => .error err
    | .ok r2 => .ok (decide (r = r2))

/-- `sorted(self.genes)`: ascending lexicographic sort of the gene
identifiers. -/
def sortedGenes (s : GOPCASignature) : List (List Char) :=
  List.insertionSort (fun a b => a ≤ b) s.genes

/-- `GOPCASignature.gene_list`: `','.join(sorted(self.genes))`. -/
def geneList (s : GOPCASignature) : List Char :=
  List.intercalate (strL ",") (sortedGenes s)

/-- Number of samples: `X.shape[1]`. -/
def nsamples (X : NDArray) : ℕ := X.shape.getD 1 0

/-- Entry `X[i, j]` of the row-major array, as a real. -/
noncomputable def entryAt (X : NDArray) (i j : ℕ) : ℝ :=
  ((X.data.getD (i * nsamples X + j) 0 : ℚ) : ℝ)

/-- Mean of row `i` (over the samples). -/
noncomputable def rowMean (X : NDArray) (i : ℕ) : ℝ :=
  (∑ j ∈ Finset.range (nsamples X), entryAt X i j) / (nsamples X : ℝ)

/-- `np.cov` entry (ddof = 1) between rows `i` and `i2`. -/
noncomputable def covS (X : NDArray) (i i2 : ℕ) : ℝ :=
  (∑ j ∈ Finset.range (nsamples X),
    (entryAt X i j - rowMean X i) * (entryAt X i2 j - rowMean X i2)) /
    ((nsamples X : ℝ) - 1)

/-- `np.sqrt(np.diag(cov))`: the standard deviation of row `i`. -/
noncomputable def sdev (X : NDArray) (i : ℕ) : ℝ := Real.sqrt (covS X i i)

/-- `np.corrcoef` entry for rows `i`, `i2`: `cov / (d_i * d_i2)`; `none`
models the NaN produced by a zero standard deviation (0/0) or by fewer than
two samples (division by `n - 1 ≤ 0` of `np.cov`). -/
noncomputable def corrEntry (X : NDArray) (i i2 : ℕ) : Option ℝ :=
  if nsamples X < 2 ∨ sdev X i = 0 ∨ sdev X i2 = 0 then none
  else some (covS X i i2 / (sdev X i * sdev X i2))

/-- `np.triu_indices(k, 1)`: the strict upper-triangle index pairs in
row-major order. -/
def upperPairs (k : ℕ) : List (ℕ × ℕ) :=
  (List.range k).flatMap (fun i => ((List.range k).drop (i + 1)).map (fun j => (i, j)))

/-- `np.median` of a non-empty list: middle element of the sorted list, or
the average of the two middle elements. -/
noncomputable def medianR (xs : List ℝ) : ℝ :=
  let sorted := List.insertionSort (fun a b => a ≤ b) xs
  if xs.length % 2 = 1 then sorted.getD (xs.length / 2) 0
  else (sorted.getD (xs.length / 2 - 1) 0 + sorted.getD (xs.length / 2) 0) / 2

/-- `GOPCASignature.median_correlation`: median of `C[np.triu_indices(k, 1)]`
where `C = np.corrcoef(X)`; `none` models NaN (empty selection for `k < 2`,
or any NaN correlation). -/
noncomputable def medianCorrelation (s : GOPCASignature) : Option ℝ :=
  let vals := (upperPairs s.genes.length).map (fun p => corrEntry s.X p.1 p.2)
  if vals.length = 0 ∨ vals.any (fun v => v.isNone) then none
  else some (medianR (vals.map (fun v => v.getD 0)))

/-- Python fancy indexing `xs[idx]` / list comprehension
`[xs[i] for i in idx]`. -/
def pyIndexList {α : Type} (xs : List α) (idx : List ℕ) : List α :=
  idx.filterMap (fun i => xs.get? i)

/-- Column `j` of a row-major list-of-rows matrix. -/
def colAt (S : List (List ℚ)) (j : ℕ) : List ℚ := S.map (fun r => r.getD j 0)

/-- The reordering core of `extract_signature_matrix.main`.  The leaf orders
`orderRows` (from `common.cluster_signatures`, which also applies the
`invert` option) and `orderCols` (from the sample dendrogram) are taken as
inputs; modelled from the spec, hierarchical clustering returns a
permutation of the row (resp. column) indices.  Rows of `S` and the labels
are reindexed by `orderRows`; unless sample clustering is disabled, the
columns of `S` and the sample list are reindexed by `orderCols`. -/
def extractMain (signatures : List GOPCASignature) (samples : List (List Char))
    (S : List (List ℚ)) (orderRows orderCols : List ℕ)
    (disableSampleClustering : Bool) :
    List (List ℚ) × List (List Char) × List (List Char) :=
  let labels := signatures.map (fun sig => getLabel sig 0 true false false true)
  let S1 := pyIndexList S orderRows
  let labels1 := pyIndexList labels orderRows
  if disableSampleClustering then (S1, labels1, samples)
  else (S1.map (fun row => pyIndexList row orderCols), labels1, pyIndexList samples orderCols)

/-- Modelled from the spec: the SignatureBuilder (module `go_pca.py`) is not
under `src/`; per the spec it builds each signature "from the genes at ranks
`1..k*`, their expression rows, the signed PC, and the EnrichmentResult",
where `k* = enr.k`.  `expr` maps a gene to its expression row (each of
length `ncolsE`). -/
def buildSignature (ranked : List (List Char)) (expr : List Char → List ℚ)
    (ncolsE : ℕ) (pc : ℤ) (enr : GOTermEnrichment) : GOPCASignature :=
  let genes := ranked.take enr.k
  mkGOPCASignature genes ⟨[genes.length, ncolsE], (genes.map expr).flatten, true⟩ pc enr

/-- A sample GO term used by concrete witnesses. -/
def term0 : GOTerm := ⟨strL "GO:0000001", strL "GO", strL "BP", strL "tn"⟩

/-- A sample enrichment record with a defined E-score. -/
def enr0 : GOTermEnrichment := ⟨term0, 1/100, some 2, 2, 5, 10, [2, 3], 1/1000000⟩

/-- A sample enrichment record whose E-score is undefined (`None`). -/
def enrNone : GOTermEnrichment := { enr0 with escore := none }

/-- Signature over a 2×1 matrix with flattened data `[1, 2]`. -/
def sigTall : GOPCASignature :=
  mkGOPCASignature [strL "a", strL "b"] ⟨[2, 1], [1, 2], true⟩ 1 enr0

/-- Signature over a 1×2 matrix with the same flattened data `[1, 2]` —
the same buffer bytes as `sigTall.X`, a different matrix. -/
def sigWide : GOPCASignature :=
  mkGOPCASignature [strL "a", strL "b"] ⟨[1, 2], [1, 2], true⟩ 1 enr0

/-- Signature whose first expression row `[1, 1]` is constant. -/
def sigConstRow : GOPCASignature :=
  mkGOPCASignature [strL "a", strL "b"] ⟨[2, 2], [1, 1, 0, 1], true⟩ 1 enr0

/-- Signature with rows `[0, 1]` and `[0, 2]` (correlation exactly 1). -/
def sigCorr1 : GOPCASignature :=
  mkGOPCASignature [strL "a", strL "b"] ⟨[2, 2], [0, 1, 0, 2], true⟩ 1 enr0

/-- C3: a `GOPCASignature` is immutable after construction: the constructor
stores a private copy of the expression matrix with the `writeable` flag
cleared (so the stored matrix is independent of the caller's array and item
assignment on `sig.X` raises `ValueError`), and `__setstate__` restores the
write-protection on deserialization. -/
theorem signature_immutable_after_construction :
    ∀ (genes : List (List Char)) (X : NDArray) (pc : ℤ) (enr : GOTermEnrichment),
    (mkGOPCASignature genes X pc enr).X =
      { shape := X.shape, data := X.data, writeable := false } ∧
    (∀ i v, npSetItem (mkGOPCASignature genes X pc enr).X i v =
      Except.error PyErr.valueError) ∧
    (∀ d : GOPCASignature, (setstateSig d).X.writeable = false) := by
  intro genes X pc enr
  refine ⟨rfl, ?_, fun d => rfl⟩
  intro i v
  simp [npSetItem, mkGOPCASignature, npCopy]

/-- C2: (spec-modelled builder) a signature built by the SignatureBuilder
from the top `enr.k` genes of the ranking satisfies
`len(genes) = X.shape[0] = enr.k`, its data holds one expression row per
gene, and the genes are exactly the first `enr.k` ranked genes — in rank
order, not resorted. -/
theorem builder_signature_invariants (ranked : List (List Char))
    (expr : List Char → List ℚ) (ncolsE : ℕ) (pc : ℤ) (enr : GOTermEnrichment)
    (hk : enr.k ≤ ranked.length) (hrow : ∀ g, (expr g).length = ncolsE) :
    (buildSignature ranked expr ncolsE pc enr).genes.length = enr.k ∧
    (buildSignature ranked expr ncolsE pc enr).X.shape.getD 0 0 = enr.k ∧
    (buildSignature ranked expr ncolsE pc enr).X.data.length = enr.k * ncolsE ∧
    (buildSignature ranked expr ncolsE pc enr).genes = ranked.take enr.k := by
  have hlen : (ranked.take enr.k).length = enr.k := by
    simp [List.length_take, Nat.min_eq_left hk]
  refine ⟨?_, ?_, ?_, rfl⟩
  · simpa [buildSignature, mkGOPCASignature, npCopy] using hlen
  · simpa [buildSignature, mkGOPCASignature, npCopy] using hlen
  · have : ((ranked.take enr.k).map expr).flatten.length =
        ((ranked.take enr.k).map fun g => (expr g).length).sum := by
      simp [List.length_flatten, List.map_map, Function.comp_def]
    simp only [buildSignature, mkGOPCASignature, npCopy]
    rw [this]
    have : ((ranked.take enr.k).map fun g => (expr g).length) =
        List.replicate (ranked.take enr.k).length ncolsE := by
      simp only [hrow]
      exact List.map_const' _ ncolsE
    rw [this, List.sum_replicate, hlen, smul_eq_mul]

/-- C2 witness: a concrete builder run with three ranked genes and
`enr.k = 2`. -/
theorem builder_signature_invariants_witness :
    (buildSignature [strL "a", strL "b", strL "c"] (fun _ => [0, 1]) 2 1 enr0).genes.length
      = enr0.k ∧
    (buildSignature [strL "a", strL "b", strL "c"] (fun _ => [0, 1]) 2 1 enr0).X.shape.getD 0 0
      = enr0.k ∧
    (buildSignature [strL "a", strL "b", strL "c"] (fun _ => [0, 1]) 2 1 enr0).X.data.length
      = enr0.k * 2 ∧
    (buildSignature [strL "a", strL "b", strL "c"] (fun _ => [0, 1]) 2 1 enr0).genes
      = [strL "a", strL "b", strL "c"].take enr0.k :=
  builder_signature_invariants [strL "a", strL "b", strL "c"] (fun _ => [0, 1]) 2 1 enr0
    (by decide) (fun _ => rfl)

/-- C10: for a signature whose enrichment E-score is `None`, `repr()`,
`str()`, `hash()` and `==` all raise `TypeError` (from formatting `None`
with `%.1f`), so such a signature cannot be printed, hashed or compared;
`get_label` alone guards the E-score against `None` and succeeds, emitting
the p-value part but no E-score part. -/
theorem escore_none_raises (genes : List (List Char)) (X : NDArray) (pc : ℤ)
    (enr : GOTermEnrichment) (he : enr.escore = none) :
    pyRepr (mkGOPCASignature genes X pc enr) = Except.error PyErr.typeError ∧
    pyStrOf (mkGOPCASignature genes X pc enr) = Except.error PyErr.typeError ∧
    pyHashSig (mkGOPCASignature genes X pc enr) = Except.error PyErr.typeError ∧
    (∀ t, pyEq (mkGOPCASignature genes X pc enr) t = Except.error PyErr.typeError) ∧
    getLabel (mkGOPCASignature genes X pc enr) 0 true true true true =
      enr.term.domain ++ strL ": " ++ applyAbbrev enr.term.name ++ strL " (" ++
        enr.term.tid ++ strL ")" ++
        (strL " [" ++ intStr pc ++ strL ":" ++ natStr genes.length ++ strL "/" ++
          natStr enr.K ++ (strL ", p=" ++ fmtE1 enr.pval) ++ strL "]") := by
  have hrepr : pyRepr (mkGOPCASignature genes X pc enr) = Except.error PyErr.typeError := by
    simp [pyRepr, mkGOPCASignature, npCopy, he]
  refine ⟨hrepr, ?_, ?_, ?_, ?_⟩
  · simp [pyStrOf, mkGOPCASignature, npCopy, he]
  · rw [pyHashSig, hrepr]
  · intro t
    rw [pyEq, hrepr]
  · simp [getLabel, mkGOPCASignature, npCopy, he, processName]

/-- C10 witness: the concrete `None`-E-score record `enrNone`. -/
theorem escore_none_raises_witness :
    pyRepr (mkGOPCASignature [strL "a"] ⟨[1, 1], [3], true⟩ 1 enrNone) =
      Except.error PyErr.typeError ∧
    pyStrOf (mkGOPCASignature [strL "a"] ⟨[1, 1], [3], true⟩ 1 enrNone) =
      Except.error PyErr.typeError ∧
    pyHashSig (mkGOPCASignature [strL "a"] ⟨[1, 1], [3], true⟩ 1 enrNone) =
      Except.error PyErr.typeError ∧
    (∀ t, pyEq (mkGOPCASignature [strL "a"] ⟨[1, 1], [3], true⟩ 1 enrNone) t =
      Except.error PyErr.typeError) ∧
    getLabel (mkGOPCASignature [strL "a"] ⟨[1, 1], [3], true⟩ 1 enrNone) 0 true true true true =
      enrNone.term.domain ++ strL ": " ++ applyAbbrev enrNone.term.name ++ strL " (" ++
        enrNone.term.tid ++ strL ")" ++
        (strL " [" ++ intStr 1 ++ strL ":" ++ natStr [strL "a"].length ++ strL "/" ++
          natStr enrNone.K ++ (strL ", p=" ++ fmtE1 enrNone.pval) ++ strL "]") :=
  escore_none_raises [strL "a"] ⟨[1, 1], [3], true⟩ 1 enrNone rfl

/-- C8: the representation and the hash are deterministic functions of the
structural content alone (genes, pc, enrichment record, matrix bytes and the
writeable flag): two signatures agreeing on that content — e.g. two runs on
identical input — have identical repr and identical hash.  (The enrichment
hash is spec-modelled as structural; CPython 2.7 string hashing is
deterministic across runs.) -/
theorem repr_hash_deterministic (s1 s2 : GOPCASignature)
    (hg : s1.genes = s2.genes) (hp : s1.pc = s2.pc) (he : s1.enr = s2.enr)
    (hd : s1.X.data = s2.X.data) (hw : s1.X.writeable = s2.X.writeable) :
    pyRepr s1 = pyRepr s2 ∧ pyHashSig s1 = pyHashSig s2 := by
  obtain ⟨g1, ⟨sh1, d1, w1⟩, p1, e1⟩ := s1
  obtain ⟨g2, ⟨sh2, d2, w2⟩, p2, e2⟩ := s2
  dsimp only at hg hp he hd hw
  subst hg hp he hd hw
  have hrepr : pyRepr ⟨g1, ⟨sh1, d1, w1⟩, p1, e1⟩ = pyRepr ⟨g1, ⟨sh2, d1, w1⟩, p1, e1⟩ := by
    simp [pyRepr, getLabel, processName, bufHash]
  exact ⟨hrepr, by simp [pyHashSig, hrepr]⟩

/-- C8 witness: `sigTall` and `sigWide` agree on genes, pc, enrichment,
matrix bytes and flag (differing only in shape), so repr and hash agree. -/
theorem repr_hash_deterministic_witness :
    pyRepr sigTall = pyRepr sigWide ∧ pyHashSig sigTall = pyHashSig sigWide :=
  repr_hash_deterministic sigTall sigWide rfl rfl rfl rfl rfl

/-- C9: `gene_list` is the comma-join of the alphabetically sorted gene
identifiers: the joined list is a sorted permutation of `genes`, and any two
signatures whose gene tuples are permutations of each other have the same
`gene_list`, regardless of stored order. -/
theorem geneList_sorted_comma_join (s t : GOPCASignature)
    (hperm : s.genes.Perm t.genes) :
    (sortedGenes s).Perm s.genes ∧
    List.Sorted (fun a b => a ≤ b) (sortedGenes s) ∧
    geneList s = List.intercalate (strL ",") (sortedGenes s) ∧
    geneList s = geneList t := by
  refine ⟨List.perm_insertionSort _ s.genes, List.sorted_insertionSort _ s.genes, rfl, ?_⟩
  have hst : sortedGenes s = sortedGenes t := by
    apply List.eq_of_perm_of_sorted
      (((List.perm_insertionSort _ s.genes).trans hperm).trans
        (List.perm_insertionSort _ t.genes).symm)
      (List.sorted_insertionSort _ s.genes) (List.sorted_insertionSort _ t.genes)
  simp [geneList, hst]

/-- C9 witness: two concrete signatures with reversed gene order have equal
`gene_list`. -/
theorem geneList_sorted_comma_join_witness :
    (sortedGenes (mkGOPCASignature [strL "b", strL "a"] ⟨[2, 1], [1, 2], true⟩ 1 enr0)).Perm
      (mkGOPCASignature [strL "b", strL "a"] ⟨[2, 1], [1, 2], true⟩ 1 enr0).genes ∧
    List.Sorted (fun a b => a ≤ b)
      (sortedGenes (mkGOPCASignature [strL "b", strL "a"] ⟨[2, 1], [1, 2], true⟩ 1 enr0)) ∧
    geneList (mkGOPCASignature [strL "b", strL "a"] ⟨[2, 1], [1, 2], true⟩ 1 enr0) =
      List.intercalate (strL ",")
        (sortedGenes (mkGOPCASignature [strL "b", strL "a"] ⟨[2, 1], [1, 2], true⟩ 1 enr0)) ∧
    geneList (mkGOPCASignature [strL "b", strL "a"] ⟨[2, 1], [1, 2], true⟩ 1 enr0) =
      geneList sigTall :=
  geneList_sorted_comma_join
    (mkGOPCASignature [strL "b", strL "a"] ⟨[2, 1], [1, 2], true⟩ 1 enr0) sigTall (by decide)

/-- C6 (amended): with id, stats, p-value and domain inclusion all enabled
and a non-null E-score, `get_label` returns exactly
`"<domain>: <term name> (<term id>) [<pc>:<k>/<K>, e=<escore>, p=<pval>]"`;
in general, `include_domain` controls the domain prefix, `include_id` the
`(<term id>)` part, `include_stats` the bracket, while the `e=` and `p=`
parts appear only when `include_stats` and `include_pval` are both set
(the `e=` part additionally requires a non-null E-score). -/
theorem getLabel_format (s : GOPCASignature) (e : ℚ) (he : s.enr.escore = some e) :
    getLabel s 0 true true true true =
      s.enr.term.domain ++ strL ": " ++ applyAbbrev s.enr.term.name ++ strL " (" ++
        s.enr.term.tid ++ strL ") [" ++ intStr s.pc ++ strL ":" ++
        natStr s.genes.length ++ strL "/" ++ natStr s.enr.K ++ strL ", e=" ++
        fmt1f e ++ strL ", p=" ++ fmtE1 s.enr.pval ++ strL "]" ∧
    (∀ maxLen : ℤ, ∀ stats id pval domain : Bool,
      getLabel s maxLen stats id pval domain =
        (if domain then s.enr.term.domain ++ strL ": " ++ processName s.enr.term.name maxLen
         else processName s.enr.term.name maxLen) ++
        (if id then strL " (" ++ s.enr.term.tid ++ strL ")" else []) ++
        (if stats then
          strL " [" ++ intStr s.pc ++ strL ":" ++ natStr s.genes.length ++ strL "/" ++
            natStr s.enr.K ++
            (if pval then strL ", e=" ++ fmt1f e else []) ++
            (if pval then strL ", p=" ++ fmtE1 s.enr.pval else []) ++ strL "]"
         else [])) := by
  constructor
  · simp [getLabel, processName, he, strL, List.append_assoc]
  · intro maxLen stats id pval domain
    cases stats <;> cases id <;> cases pval <;> cases domain <;>
      simp [getLabel, he, strL, List.append_assoc]

/-- C6 witness: the concrete signature `sigTall` (E-score 2). -/
theorem getLabel_format_witness :
    getLabel sigTall 0 true true true true =
      sigTall.enr.term.domain ++ strL ": " ++ applyAbbrev sigTall.enr.term.name ++ strL " (" ++
        sigTall.enr.term.tid ++ strL ") [" ++ intStr sigTall.pc ++ strL ":" ++
        natStr sigTall.genes.length ++ strL "/" ++ natStr sigTall.enr.K ++ strL ", e=" ++
        fmt1f 2 ++ strL ", p=" ++ fmtE1 sigTall.enr.pval ++ strL "]" ∧
    (∀ maxLen : ℤ, ∀ stats id pval domain : Bool,
      getLabel sigTall maxLen stats id pval domain =
        (if domain then sigTall.enr.term.domain ++ strL ": " ++
            processName sigTall.enr.term.name maxLen
         else processName sigTall.enr.term.name maxLen) ++
        (if id then strL " (" ++ sigTall.enr.term.tid ++ strL ")" else []) ++
        (if stats then
          strL " [" ++ intStr sigTall.pc ++ strL ":" ++ natStr sigTall.genes.length ++
            strL "/" ++ natStr sigTall.enr.K ++
            (if pval then strL ", e=" ++ fmt1f 2 else []) ++
            (if pval then strL ", p=" ++ fmtE1 sigTall.enr.pval else []) ++ strL "]"
         else [])) :=
  getLabel_format sigTall 2 rfl

/-- C6 counterexample: with stats included but p-value inclusion left at its
default (`False`), the bracket of the label contains no `e=` and no `p=`
part, contradicting the claim that the E-score and p-value parts appear
whenever stats are included. -/
theorem getLabel_stats_without_pval_cex :
    getLabel sigTall 0 true true false true = strL "BP: tn (GO:0000001) [1:2/5]" ∧
    getLabel sigTall 0 true true false true ≠
      strL "BP: tn (GO:0000001) [1:2/5, e=2.0, p=1.0e-02]" := by
  constructor
  · decide
  · decide

/-- C7 (amended): label generation applies the fixed ordered abbreviation
table to the term name as substitutions in sequence; when the configured
maximum name length is at least 3 and the abbreviated name is longer, the
name is truncated to exactly the maximum length and ends in the ellipsis
`"..."`.  (For a configured maximum of 1 or 2 the Python negative slice
`term_name[:(max-3)]` makes the result longer than the maximum instead.) -/
theorem processName_abbrev_truncation (name : List Char) (maxLen : ℤ)
    (h3 : 3 ≤ maxLen) (hlong : maxLen < ((applyAbbrev name).length : ℤ)) :
    applyAbbrev name = abbrevTable.foldl (fun n ab => replaceAllL n ab.1 ab.2) name ∧
    processName name maxLen = pySliceTo (applyAbbrev name) (maxLen - 3) ++ strL "..." ∧
    (processName name maxLen).length = maxLen.toNat ∧
    (processName name maxLen).drop (maxLen.toNat - 3) = strL "..." := by
  have hcond : 0 < maxLen ∧ maxLen < ((applyAbbrev name).length : ℤ) :=
    ⟨lt_of_lt_of_le (by norm_num) h3, hlong⟩
  have hproc : processName name maxLen = pySliceTo (applyAbbrev name) (maxLen - 3) ++ strL "..." := by
    rw [processName, if_pos hcond]
  have hslice : pySliceTo (applyAbbrev name) (maxLen - 3) = (applyAbbrev name).take (maxLen - 3).toNat := by
    rw [pySliceTo, if_pos (by omega : (0:ℤ) ≤ maxLen - 3)]
  have htklen : ((applyAbbrev name).take (maxLen - 3).toNat).length = (maxLen - 3).toNat := by
    rw [List.length_take]
    omega
  refine ⟨rfl, hproc, ?_, ?_⟩
  · rw [hproc, hslice, List.length_append, htklen]
    simp [strL]
    omega
  · rw [hproc, hslice]
    have hlen : (maxLen.toNat - 3) = ((applyAbbrev name).take (maxLen - 3).toNat).length := by
      rw [htklen]; omega
    rw [hlen, List.drop_left]

/-- C7 witness: a concrete 8-character name truncated to maximum length 5. -/
theorem processName_abbrev_truncation_witness :
    applyAbbrev (strL "abcdefgh") =
      abbrevTable.foldl (fun n ab => replaceAllL n ab.1 ab.2) (strL "abcdefgh") ∧
    processName (strL "abcdefgh") 5 =
      pySliceTo (applyAbbrev (strL "abcdefgh")) (5 - 3) ++ strL "..." ∧
    (processName (strL "abcdefgh") 5).length = (5 : ℤ).toNat ∧
    (processName (strL "abcdefgh") 5).drop ((5 : ℤ).toNat - 3) = strL "..." :=
  processName_abbrev_truncation (strL "abcdefgh") 5 (by decide) (by decide)

/-- C7 counterexample: with the positive configured maximum 1 and the
4-character name `"abcd"` (abbreviations leave it unchanged), the processed
name is `"ab..."` of length 5 — not truncated to at most the maximum length
1. -/
theorem processName_small_max_cex :
    (0 : ℤ) < 1 ∧ (1 : ℤ) < ((applyAbbrev (strL "abcd")).length : ℤ) ∧
    processName (strL "abcd") 1 = strL "ab..." ∧
    ¬ (processName (strL "abcd") 1).length ≤ 1 := by
  decide

theorem toNat_ofNat_digit : ∀ d : ℕ, d < 10 → (Char.ofNat (48 + d)).toNat = 48 + d := by
  decide

theorem natDigitsGo_ne_dash : ∀ (fuel n : ℕ) (c : Char), c ∈ natDigitsGo fuel n → c ≠ '-' := by
  intro fuel
  induction fuel with
  | zero => intro n c hc; simp [natDigitsGo] at hc
  | succ fuel ih =>
    intro n c hc
    rw [natDigitsGo] at hc
    by_cases h0 : n = 0
    · simp [h0] at hc
    · rw [if_neg h0] at hc
      rcases List.mem_append.mp hc with h | h
      · exact ih _ _ h
      · simp at h
        intro hdash
        rw [hdash] at h
        have := congrArg Char.toNat h
        rw [toNat_ofNat_digit (n % 10) (Nat.mod_lt _ (by norm_num))] at this
        simp at this
        omega

theorem decode_append_digit (xs : List Char) (c : Char) :
    decodeDigits (xs ++ [c]) = 10 * decodeDigits xs + (c.toNat - 48) := by
  simp [decodeDigits, List.foldl_append]

theorem decode_natDigitsGo : ∀ fuel n, n ≤ fuel → decodeDigits (natDigitsGo fuel n) = n := by
  intro fuel
  induction fuel with
  | zero =>
    intro n hn
    have : n = 0 := by omega
    simp [this, natDigitsGo, decodeDigits]
  | succ fuel ih =>
    intro n hn
    by_cases h0 : n = 0
    · simp [h0, natDigitsGo, decodeDigits]
    · rw [natDigitsGo, if_neg h0, decode_append_digit,
        ih (n / 10) (by omega),
        toNat_ofNat_digit (n % 10) (Nat.mod_lt _ (by norm_num))]
      omega

theorem decode_natStr (n : ℕ) : decodeDigits (natStr n) = n := by
  by_cases h : n = 0
  · simp [h, natStr, decodeDigits]
  · rw [natStr, if_neg h]
    exact decode_natDigitsGo (n + 1) n (by omega)

theorem natStr_inj {a b : ℕ} (h : natStr a = natStr b) : a = b := by
  have h2 := congrArg decodeDigits h
  rwa [decode_natStr, decode_natStr] at h2

theorem natStr_no_dash (n : ℕ) : '-' ∉ natStr n := by
  rw [natStr]
  by_cases h : n = 0
  · rw [if_pos h]; decide
  · rw [if_neg h]
    intro hm
    exact natDigitsGo_ne_dash _ _ _ hm rfl

theorem intStr_inj {i j : ℤ} (h : intStr i = intStr j) : i = j := by
  rw [intStr, intStr] at h
  split_ifs at h with hi hj hj
  · simp only [List.cons.injEq, true_and] at h
    have := natStr_inj h
    omega
  · exfalso
    have : '-' ∈ natStr j.toNat := by
      rw [← h]; exact List.mem_cons_self _ _
    exact natStr_no_dash _ this
  · exfalso
    have : '-' ∈ natStr i.toNat := by
      rw [h]; exact List.mem_cons_self _ _
    exact natStr_no_dash _ this
  · have := natStr_inj h
    omega

theorem hashAdj_lt (y : ℕ) : (if y % M64 = M64 - 1 then M64 - 2 else y % M64) < M64 := by
  have hy : y % M64 < M64 := Nat.mod_lt _ (by norm_num [M64])
  have hM : (2 : ℕ) ≤ M64 := by norm_num [M64]
  split <;> omega

theorem pyHashTuple_lt (hs : List ℕ) : pyHashTuple hs < M64 := by
  simp only [pyHashTuple]
  exact hashAdj_lt _

theorem signedOfU64_inj {x y : ℕ} (hx : x < M64) (hy : y < M64)
    (h : signedOfU64 x = signedOfU64 y) : x = y := by
  simp only [signedOfU64] at h
  simp only [M64] at hx hy
  split_ifs at h <;> omega

theorem mid_append_inj (pre post : List Char) {x y : List Char}
    (h : pre ++ x ++ post = pre ++ y ++ post) : x = y := by
  rw [List.append_assoc, List.append_assoc] at h
  exact List.append_cancel_right (List.append_cancel_left h)

theorem pyRepr_mk_eq (genes : List (List Char)) (X : NDArray) (pc : ℤ)
    (enr : GOTermEnrichment) (e : ℚ) (he : enr.escore = some e) :
    pyRepr (mkGOPCASignature genes X pc enr) = Except.ok
      ((strL "<GOPCASignature: " ++
          getLabel (mkGOPCASignature genes X pc enr) 0 true false false true ++
          strL " (p=" ++ fmtE1 enr.pval ++ strL "; e=" ++ fmt1f e ++
          strL "; genes hash=") ++
        intStr (signedOfU64 (genesTupleHash genes)) ++
        (strL "; enr hash=" ++ intStr (signedOfU64 (enrHash enr)) ++
          strL ", matrix hash=" ++ intStr (signedOfU64 (bufHash X)) ++ strL ">")) := by
  simp [pyRepr, mkGOPCASignature, npCopy, he, bufHash, List.append_assoc]

theorem getLabel_default_eq (genes genes2 : List (List Char)) (X X2 : NDArray)
    (pc : ℤ) (enr : GOTermEnrichment) (hlen : genes2.length = genes.length) :
    getLabel (mkGOPCASignature genes2 X2 pc enr) 0 true false false true =
      getLabel (mkGOPCASignature genes X pc enr) 0 true false false true := by
  simp [getLabel, mkGOPCASignature, npCopy, hlen]

theorem genesTupleHash_lt (gs : List (List Char)) : genesTupleHash gs < M64 :=
  pyHashTuple_lt _

/-- C1 (amended): two signatures built from identical inputs (with a defined
E-score, so that comparison does not raise) are equal and hash identically.
Equality compares the repr string, which reflects the genes tuple only
through its CPython tuple hash and its length, and the expression matrix
only through the hash of its raw buffer bytes; consequently, changing a gene
identifier makes the signatures unequal exactly when it changes the
genes-tuple hash (as it does for every realistic edit), while two matrices
with identical bytes but different shapes leave the signatures equal. -/
theorem signature_eq_hash_structural (genes genes2 : List (List Char)) (X : NDArray)
    (pc : ℤ) (enr : GOTermEnrichment) (e : ℚ) (he : enr.escore = some e) :
    pyEq (mkGOPCASignature genes X pc enr) (mkGOPCASignature genes X pc enr) =
      Except.ok true ∧
    pyHashSig (mkGOPCASignature genes X pc enr) =
      pyHashSig (mkGOPCASignature genes X pc enr) ∧
    (genes2.length = genes.length → genesTupleHash genes2 ≠ genesTupleHash genes →
      pyEq (mkGOPCASignature genes X pc enr) (mkGOPCASignature genes2 X pc enr) =
        Except.ok false) := by
  have h1 := pyRepr_mk_eq genes X pc enr e he
  refine ⟨?_, rfl, ?_⟩
  · rw [pyEq, h1]
    simp
  · intro hlen hhash
    have h2 := pyRepr_mk_eq genes2 X pc enr e he
    rw [getLabel_default_eq genes genes2 X X pc enr hlen] at h2
    rw [pyEq, h1, h2]
    simp only [Except.ok.injEq, decide_eq_false_iff_not]
    intro hstr
    have hmid := mid_append_inj _ _ hstr
    have hsg := intStr_inj hmid
    have := signedOfU64_inj (genesTupleHash_lt genes) (genesTupleHash_lt genes2) hsg
    exact hhash this.symm

/-- C1 witness: concrete signatures — identical inputs compare equal;
replacing gene `"a"` by `"c"` (which changes the genes-tuple hash) makes
them unequal. -/
theorem signature_eq_hash_structural_witness :
    pyEq (mkGOPCASignature [strL "a", strL "b"] ⟨[2, 1], [1, 2], true⟩ 1 enr0)
        (mkGOPCASignature [strL "a", strL "b"] ⟨[2, 1], [1, 2], true⟩ 1 enr0) =
      Except.ok true ∧
    pyEq (mkGOPCASignature [strL "a", strL "b"] ⟨[2, 1], [1, 2], true⟩ 1 enr0)
        (mkGOPCASignature [strL "c", strL "b"] ⟨[2, 1], [1, 2], true⟩ 1 enr0) =
      Except.ok false :=
  ⟨(signature_eq_hash_structural [strL "a", strL "b"] [strL "c", strL "b"]
      ⟨[2, 1], [1, 2], true⟩ 1 enr0 2 rfl).1,
   (signature_eq_hash_structural [strL "a", strL "b"] [strL "c", strL "b"]
      ⟨[2, 1], [1, 2], true⟩ 1 enr0 2 rfl).2.2 rfl (by decide)⟩

/-- C1 counterexample: `sigTall` and `sigWide` have different expression
matrices (a 2×1 and a 1×2 array) but identical buffer bytes, and they
compare equal and hash identically — so equality does not imply that the
full structural representations (in particular the expression matrix
content) are identical. -/
theorem signature_eq_shape_cex :
    pyEq sigTall sigWide = Except.ok true ∧
    pyHashSig sigTall = pyHashSig sigWide ∧
    sigTall.X ≠ sigWide.X := by
  have h1 := pyRepr_mk_eq [strL "a", strL "b"] ⟨[2, 1], [1, 2], true⟩ 1 enr0 2 rfl
  have h2 := pyRepr_mk_eq [strL "a", strL "b"] ⟨[1, 2], [1, 2], true⟩ 1 enr0 2 rfl
  have hlab : getLabel (mkGOPCASignature [strL "a", strL "b"] ⟨[1, 2], [1, 2], true⟩ 1 enr0)
      0 true false false true =
      getLabel (mkGOPCASignature [strL "a", strL "b"] ⟨[2, 1], [1, 2], true⟩ 1 enr0)
      0 true false false true :=
    getLabel_default_eq [strL "a", strL "b"] [strL "a", strL "b"] _ _ 1 enr0 rfl
  rw [hlab] at h2
  have hbuf : bufHash (⟨[1, 2], [1, 2], true⟩ : NDArray) =
      bufHash (⟨[2, 1], [1, 2], true⟩ : NDArray) := rfl
  rw [hbuf] at h2
  have hrepr : pyRepr sigTall = pyRepr sigWide := by
    rw [sigTall, sigWide, h1, h2]
  refine ⟨?_, ?_, ?_⟩
  · rw [pyEq, sigTall, sigWide, h1, h2]
    simp
  · rw [pyHashSig, hrepr]
    rfl
  · intro h
    have hsh := congrArg NDArray.shape h
    simp [sigTall, sigWide, mkGOPCASignature, npCopy] at hsh

theorem range_map_getD {α : Type} (l : List α) (d : α) :
    (List.range l.length).map (fun i => l.getD i d) = l := by
  induction l with
  | nil => rfl
  | cons a t ih =>
    rw [List.length_cons, List.range_succ_eq_map, List.map_cons, List.map_map]
    simp only [List.getD_cons_zero, Function.comp_def, List.getD_cons_succ]
    rw [ih]

theorem getD_map_of_lt {α β : Type} (f : α → β) (l : List α) (i : ℕ)
    (h : i < l.length) (d : α) (d2 : β) : (l.map f).getD i d2 = f (l.getD i d) := by
  rw [List.getD_eq_getElem?_getD, List.getD_eq_getElem?_getD, List.getElem?_map,
    List.getElem?_eq_getElem h]
  simp

theorem pyIndexList_eq_map {α : Type} (xs : List α) (idx : List ℕ) (d : α)
    (h : ∀ i ∈ idx, i < xs.length) :
    pyIndexList xs idx = idx.map (fun i => xs.getD i d) := by
  induction idx with
  | nil => rfl
  | cons i t ih =>
    have hi : i < xs.length := h i (List.mem_cons_self i t)
    have hv : xs[i]? = some (xs.getD i d) := by
      rw [List.getElem?_eq_getElem hi, List.getD_eq_getElem?_getD,
        List.getElem?_eq_getElem hi]
      rfl
    have ht := ih (fun j hj => h j (List.mem_cons_of_mem _ hj))
    simp only [pyIndexList, List.get?_eq_getElem?] at ht ⊢
    rw [List.filterMap_cons, hv, ht]
    simp

theorem pyIndexList_perm {α : Type} (xs : List α) (idx : List ℕ) (d : α)
    (h : idx.Perm (List.range xs.length)) : (pyIndexList xs idx).Perm xs := by
  have hb : ∀ i ∈ idx, i < xs.length := fun i hi => List.mem_range.mp (h.mem_iff.mp hi)
  rw [pyIndexList_eq_map xs idx d hb]
  have h2 := h.map (fun i => xs.getD i d)
  rwa [range_map_getD] at h2

/-- C4: (clustering leaf orders spec-modelled as permutations) the reordering
core of `extract_signature_matrix.main` only permutes: the row permutation is
always applied, and it is the same permutation for the rows of S and for the
signature labels; unless sample clustering is disabled, the same column
permutation is applied to the columns of S and to the sample list (when
disabled, S and the samples keep their column order); the numbers of
signatures and samples are unchanged, the labels and samples are permuted,
and the multiset of S entries in each row and in each column is unchanged. -/
theorem matrix_reorder_permutes (signatures : List GOPCASignature)
    (samples : List (List Char)) (S : List (List ℚ)) (orderRows orderCols : List ℕ)
    (disable : Bool) (ncols : ℕ)
    (hr : orderRows.Perm (List.range S.length))
    (hc : orderCols.Perm (List.range ncols))
    (hrect : ∀ r ∈ S, r.length = ncols)
    (hsamp : samples.length = ncols)
    (hsig : signatures.length = S.length) :
    (extractMain signatures samples S orderRows orderCols disable).2.1 =
      orderRows.map (fun i =>
        (signatures.map (fun sig => getLabel sig 0 true false false true)).getD i []) ∧
    (extractMain signatures samples S orderRows orderCols true).1 =
      orderRows.map (fun i => S.getD i []) ∧
    (extractMain signatures samples S orderRows orderCols true).2.2 = samples ∧
    (extractMain signatures samples S orderRows orderCols false).1 =
      orderRows.map (fun i => orderCols.map (fun j => (S.getD i []).getD j 0)) ∧
    (extractMain signatures samples S orderRows orderCols false).2.2 =
      orderCols.map (fun j => samples.getD j []) ∧
    (extractMain signatures samples S orderRows orderCols disable).1.length = S.length ∧
    (extractMain signatures samples S orderRows orderCols disable).2.1.length = S.length ∧
    (extractMain signatures samples S orderRows orderCols disable).2.2.length =
      samples.length ∧
    (∀ r ∈ (extractMain signatures samples S orderRows orderCols disable).1,
      r.length = ncols) ∧
    ((extractMain signatures samples S orderRows orderCols disable).2.1).Perm
      (signatures.map (fun sig => getLabel sig 0 true false false true)) ∧
    ((extractMain signatures samples S orderRows orderCols disable).2.2).Perm samples ∧
    (∀ i, i < orderRows.length →
      ((extractMain signatures samples S orderRows orderCols disable).1.getD i [] :
          Multiset ℚ) =
        (S.getD (orderRows.getD i 0) [] : Multiset ℚ)) ∧
    (∀ j, j < ncols →
      (colAt (extractMain signatures samples S orderRows orderCols false).1 j :
          Multiset ℚ) =
        (colAt S (orderCols.getD j 0) : Multiset ℚ)) ∧
    (∀ j, (colAt (extractMain signatures samples S orderRows orderCols true).1 j).Perm
      (colAt S j)) := by
  have hrS : ∀ i ∈ orderRows, i < S.length :=
    fun i hi => List.mem_range.mp (hr.mem_iff.mp hi)
  have hcc : ∀ j ∈ orderCols, j < ncols :=
    fun j hj => List.mem_range.mp (hc.mem_iff.mp hj)
  have hrlen : orderRows.length = S.length := hr.length_eq.trans (List.length_range _)
  have hclen : orderCols.length = ncols := hc.length_eq.trans (List.length_range _)
  have hgetD_mem : ∀ {β : Type} (l : List β) (i : ℕ) (d : β), i < l.length → l.getD i d ∈ l := by
    intro β l i d hi
    rw [List.getD_eq_getElem?_getD, List.getElem?_eq_getElem hi]
    exact List.getElem_mem _
  have hrowlen : ∀ i, i < S.length → (S.getD i []).length = ncols :=
    fun i hi => hrect _ (hgetD_mem S i [] hi)
  have hLlen : (signatures.map (fun sig => getLabel sig 0 true false false true)).length =
      S.length := by rw [List.length_map, hsig]
  have eqLab : pyIndexList (signatures.map (fun sig => getLabel sig 0 true false false true))
      orderRows = orderRows.map (fun i =>
        (signatures.map (fun sig => getLabel sig 0 true false false true)).getD i []) :=
    pyIndexList_eq_map _ orderRows [] (fun i hi => by rw [hLlen]; exact hrS i hi)
  have eqS1 : pyIndexList S orderRows = orderRows.map (fun i => S.getD i []) :=
    pyIndexList_eq_map S orderRows [] hrS
  have eqSamp : pyIndexList samples orderCols = orderCols.map (fun j => samples.getD j []) :=
    pyIndexList_eq_map samples orderCols [] (fun j hj => by rw [hsamp]; exact hcc j hj)
  have eqRow : ∀ i ∈ orderRows, pyIndexList (S.getD i []) orderCols =
      orderCols.map (fun j => (S.getD i []).getD j 0) := fun i hi =>
    pyIndexList_eq_map _ orderCols 0
      (fun j hj => by rw [hrowlen i (hrS i hi)]; exact hcc j hj)
  have het : extractMain signatures samples S orderRows orderCols true =
      (pyIndexList S orderRows,
        pyIndexList (signatures.map (fun sig => getLabel sig 0 true false false true))
          orderRows, samples) := by
    simp [extractMain]
  have hef : extractMain signatures samples S orderRows orderCols false =
      ((pyIndexList S orderRows).map (fun row => pyIndexList row orderCols),
        pyIndexList (signatures.map (fun sig => getLabel sig 0 true false false true))
          orderRows, pyIndexList samples orderCols) := by
    simp [extractMain]
  have hSfalse : (extractMain signatures samples S orderRows orderCols false).1 =
      orderRows.map (fun i => orderCols.map (fun j => (S.getD i []).getD j 0)) := by
    rw [hef]
    show (pyIndexList S orderRows).map (fun row => pyIndexList row orderCols) = _
    rw [eqS1, List.map_map]
    exact List.map_congr_left (fun i hi => eqRow i hi)
  have hperm_rows : ∀ {β : Type} (g : List ℚ → β),
      (orderRows.map (fun i => g (S.getD i []))).Perm (S.map g) := by
    intro β g
    have h2 := hr.map (fun i => g (S.getD i []))
    have h3 : (List.range S.length).map (fun i => g (S.getD i [])) = S.map g := by
      have h4 : (List.range S.length).map (fun i => g (S.getD i [])) =
          ((List.range S.length).map (fun i => S.getD i [])).map g := by
        rw [List.map_map]
        rfl
      rw [h4, range_map_getD]
    rwa [h3] at h2
  have hrowperm : ∀ i ∈ orderRows,
      (orderCols.map (fun j => (S.getD i []).getD j 0)).Perm (S.getD i []) := by
    intro i hi
    have h2 := hc.map (fun j => (S.getD i []).getD j 0)
    have h3 : (List.range ncols).map (fun j => (S.getD i []).getD j 0) = S.getD i [] := by
      rw [← hrowlen i (hrS i hi), range_map_getD]
    rwa [h3] at h2
  have hlab1 : (extractMain signatures samples S orderRows orderCols disable).2.1 =
      orderRows.map (fun i =>
        (signatures.map (fun sig => getLabel sig 0 true false false true)).getD i []) := by
    cases disable
    · rw [hef]; exact eqLab
    · rw [het]; exact eqLab
  refine ⟨hlab1, ?_, ?_, hSfalse, ?_, ?_, ?_, ?_, ?_, ?_, ?_, ?_, ?_, ?_⟩
  · rw [het]; exact eqS1
  · rw [het]
  · rw [hef]; exact eqSamp
  · -- row count
    cases disable
    · rw [hSfalse, List.length_map, hrlen]
    · rw [het]
      show (pyIndexList S orderRows).length = S.length
      rw [eqS1, List.length_map, hrlen]
  · -- label count
    rw [hlab1, List.length_map, hrlen]
  · -- sample count
    cases disable
    · rw [hef]
      show (pyIndexList samples orderCols).length = samples.length
      rw [eqSamp, List.length_map, hclen, hsamp]
    · rw [het]
  · -- row lengths
    intro r hrr
    cases disable
    · rw [hSfalse] at hrr
      obtain ⟨i, hi, hieq⟩ := List.mem_map.mp hrr
      rw [← hieq, List.length_map, hclen]
    · rw [het] at hrr
      have hperm := pyIndexList_perm S orderRows [] hr
      exact hrect r (hperm.mem_iff.mp hrr)
  · -- labels permuted
    rw [hlab1]
    have h2 := hr.map (fun i =>
      (signatures.map (fun sig => getLabel sig 0 true false false true)).getD i [])
    rw [← hLlen] at h2
    rwa [range_map_getD] at h2
  · -- samples permuted
    cases disable
    · rw [hef]
      exact pyIndexList_perm samples orderCols [] (by rw [hsamp]; exact hc)
    · rw [het]
  · -- per-row multisets
    intro i hi
    have hri : orderRows.getD i 0 ∈ orderRows := by
      rw [List.getD_eq_getElem?_getD, List.getElem?_eq_getElem hi]
      exact List.getElem_mem _
    cases disable
    · rw [hSfalse, getD_map_of_lt _ orderRows i hi 0 []]
      rw [Multiset.coe_eq_coe]
      exact hrowperm _ hri
    · rw [het]
      show ((pyIndexList S orderRows).getD i [] : Multiset ℚ) = _
      rw [eqS1, getD_map_of_lt _ orderRows i hi 0 []]
  · -- per-column multisets, clustering enabled
    intro j hj
    have hjlt : j < orderCols.length := by rw [hclen]; exact hj
    have hcol : colAt (extractMain signatures samples S orderRows orderCols false).1 j =
        orderRows.map (fun i => (S.getD i []).getD (orderCols.getD j 0) 0) := by
      rw [hSfalse, colAt, List.map_map]
      exact List.map_congr_left (fun i hi => by
        exact getD_map_of_lt _ orderCols j hjlt 0 0)
    rw [hcol, Multiset.coe_eq_coe]
    exact hperm_rows (fun r => r.getD (orderCols.getD j 0) 0)
  · -- per-column permutation, clustering disabled
    intro j
    rw [het]
    show (colAt (pyIndexList S orderRows) j).Perm (colAt S j)
    rw [eqS1, colAt, List.map_map]
    exact hperm_rows (fun r => r.getD j 0)

/-- C4 witness: a concrete 2×2 instance whose row and column leaf orders both
reverse the indices. -/
theorem matrix_reorder_permutes_witness :
    ((extractMain [sigTall, sigWide] [strL "s", strL "t"] [[1, 2], [3, 4]] [1, 0] [1, 0]
        false).2.1).Perm
      ([sigTall, sigWide].map (fun sig => getLabel sig 0 true false false true)) ∧
    ((extractMain [sigTall, sigWide] [strL "s", strL "t"] [[1, 2], [3, 4]] [1, 0] [1, 0]
        false).2.2).Perm [strL "s", strL "t"] ∧
    (extractMain [sigTall, sigWide] [strL "s", strL "t"] [[1, 2], [3, 4]] [1, 0] [1, 0]
        false).1.length = ([[1, 2], [3, 4]] : List (List ℚ)).length := by
  have h := matrix_reorder_permutes [sigTall, sigWide] [strL "s", strL "t"]
    [[1, 2], [3, 4]] [1, 0] [1, 0] false 2 (by decide) (by decide)
    (by decide) (by decide) (by decide)
  exact ⟨h.2.2.2.2.2.2.2.2.2.1, h.2.2.2.2.2.2.2.2.2.2.1, h.2.2.2.2.2.1⟩

theorem corr_ratio_bounds (Sxy Sxx Syy n1 : ℝ) (hn1 : 0 < n1)
    (hCS : Sxy ^ 2 ≤ Sxx * Syy) (hx : 0 < Sxx / n1) (hy : 0 < Syy / n1) :
    -1 ≤ (Sxy / n1) / (Real.sqrt (Sxx / n1) * Real.sqrt (Syy / n1)) ∧
      (Sxy / n1) / (Real.sqrt (Sxx / n1) * Real.sqrt (Syy / n1)) ≤ 1 := by
  have hSxx : 0 < Sxx := by
    have h2 := mul_pos hx hn1
    rwa [div_mul_cancel₀ _ hn1.ne'] at h2
  have hSyy : 0 < Syy := by
    have h2 := mul_pos hy hn1
    rwa [div_mul_cancel₀ _ hn1.ne'] at h2
  have hprod : Real.sqrt (Sxx / n1) * Real.sqrt (Syy / n1) =
      Real.sqrt (Sxx * Syy) / n1 := by
    rw [← Real.sqrt_mul (le_of_lt (div_pos hSxx hn1)),
      show Sxx / n1 * (Syy / n1) = Sxx * Syy / n1 ^ 2 by ring,
      Real.sqrt_div (by positivity) (n1 ^ 2), Real.sqrt_sq hn1.le]
  have hsqrtpos : 0 < Real.sqrt (Sxx * Syy) := Real.sqrt_pos.mpr (mul_pos hSxx hSyy)
  have hratio : (Sxy / n1) / (Real.sqrt (Sxx / n1) * Real.sqrt (Syy / n1)) =
      Sxy / Real.sqrt (Sxx * Syy) := by
    rw [hprod]
    field_simp
  rw [hratio, ← abs_le, abs_div, abs_of_pos hsqrtpos, div_le_one hsqrtpos]
  calc |Sxy| = Real.sqrt (Sxy ^ 2) := (Real.sqrt_sq_eq_abs _).symm
    _ ≤ Real.sqrt (Sxx * Syy) := Real.sqrt_le_sqrt hCS

theorem corrEntry_some_bounds (X : NDArray) (i j : ℕ) (hn : 2 ≤ nsamples X)
    (hi : sdev X i ≠ 0) (hj : sdev X j ≠ 0) :
    ∃ r, corrEntry X i j = some r ∧ -1 ≤ r ∧ r ≤ 1 := by
  have hn1 : (0 : ℝ) < (nsamples X : ℝ) - 1 := by
    have h2 : (2 : ℝ) ≤ (nsamples X : ℝ) := by exact_mod_cast hn
    linarith
  have hxx : 0 < covS X i i := Real.sqrt_ne_zero'.mp hi
  have hyy : 0 < covS X j j := Real.sqrt_ne_zero'.mp hj
  have hCS : (∑ t ∈ Finset.range (nsamples X),
        (entryAt X i t - rowMean X i) * (entryAt X j t - rowMean X j)) ^ 2 ≤
      (∑ t ∈ Finset.range (nsamples X),
        (entryAt X i t - rowMean X i) * (entryAt X i t - rowMean X i)) *
      (∑ t ∈ Finset.range (nsamples X),
        (entryAt X j t - rowMean X j) * (entryAt X j t - rowMean X j)) := by
    have h2 := Finset.sum_mul_sq_le_sq_mul_sq (Finset.range (nsamples X))
      (fun t => entryAt X i t - rowMean X i) (fun t => entryAt X j t - rowMean X j)
    have hxsq : (∑ t ∈ Finset.range (nsamples X),
        (entryAt X i t - rowMean X i) ^ 2) =
        ∑ t ∈ Finset.range (nsamples X),
          (entryAt X i t - rowMean X i) * (entryAt X i t - rowMean X i) :=
      Finset.sum_congr rfl (fun t _ => pow_two _)
    have hysq : (∑ t ∈ Finset.range (nsamples X),
        (entryAt X j t - rowMean X j) ^ 2) =
        ∑ t ∈ Finset.range (nsamples X),
          (entryAt X j t - rowMean X j) * (entryAt X j t - rowMean X j) :=
      Finset.sum_congr rfl (fun t _ => pow_two _)
    rwa [hxsq, hysq] at h2
  have hb := corr_ratio_bounds
    (∑ t ∈ Finset.range (nsamples X),
      (entryAt X i t - rowMean X i) * (entryAt X j t - rowMean X j))
    (∑ t ∈ Finset.range (nsamples X),
      (entryAt X i t - rowMean X i) * (entryAt X i t - rowMean X i))
    (∑ t ∈ Finset.range (nsamples X),
      (entryAt X j t - rowMean X j) * (entryAt X j t - rowMean X j))
    ((nsamples X : ℝ) - 1) hn1 hCS hxx hyy
  refine ⟨covS X i j / (sdev X i * sdev X j), ?_, hb.1, hb.2⟩
  rw [corrEntry, if_neg]
  push_neg
  exact ⟨by omega, hi, hj⟩

theorem medianR_mem_Icc (xs : List ℝ) (hne : xs.length ≠ 0)
    (hb : ∀ x ∈ xs, -1 ≤ x ∧ x ≤ 1) : -1 ≤ medianR xs ∧ medianR xs ≤ 1 := by
  have hperm := List.perm_insertionSort (fun a b : ℝ => a ≤ b) xs
  have hlen : (List.insertionSort (fun a b : ℝ => a ≤ b) xs).length = xs.length :=
    hperm.length_eq
  have hmem : ∀ i, i < xs.length →
      -1 ≤ (List.insertionSort (fun a b : ℝ => a ≤ b) xs).getD i 0 ∧
        (List.insertionSort (fun a b : ℝ => a ≤ b) xs).getD i 0 ≤ 1 := by
    intro i hi
    have hi2 : i < (List.insertionSort (fun a b : ℝ => a ≤ b) xs).length := by
      rw [hlen]; exact hi
    rw [List.getD_eq_getElem?_getD, List.getElem?_eq_getElem hi2]
    simpa using hb _ (hperm.mem_iff.mp (List.getElem_mem hi2))
  rw [medianR]
  split
  · exact hmem _ (by omega)
  · have h1 := hmem (xs.length / 2 - 1) (by omega)
    have h2 := hmem (xs.length / 2) (by omega)
    constructor
    · linarith [h1.1, h2.1]
    · linarith [h1.2, h2.2]

theorem upperPairs_lt2 (k : ℕ) (h : k < 2) : upperPairs k = [] := by
  interval_cases k <;> rfl

theorem upperPairs_length (k : ℕ) : (upperPairs k).length = k * (k - 1) / 2 := by
  rw [upperPairs, List.length_flatMap]
  have h1 : List.map
      (List.length ∘ fun i => ((List.range k).drop (i + 1)).map (fun j => (i, j)))
      (List.range k) = (List.range k).map (fun i => k - 1 - i) := by
    apply List.map_congr_left
    intro i _
    simp only [Function.comp_def, List.length_map, List.length_drop, List.length_range]
    omega
  rw [h1]
  have h2 : ((List.range k).map (fun i => k - 1 - i)).sum =
      ∑ i ∈ Finset.range k, (k - 1 - i) := rfl
  rw [h2, Finset.sum_range_reflect (fun i => i) k, Finset.sum_range_id]

theorem upperPairs_mem_lt (k : ℕ) (p : ℕ × ℕ) (hp : p ∈ upperPairs k) :
    p.1 < k ∧ p.2 < k := by
  rw [upperPairs, List.mem_flatMap] at hp
  obtain ⟨i, hi, hpi⟩ := hp
  rw [List.mem_map] at hpi
  obtain ⟨j, hj, rfl⟩ := hpi
  exact ⟨List.mem_range.mp hi, List.mem_range.mp (List.mem_of_mem_drop hj)⟩

/-- C5 (amended): `median_correlation` is the median of the
`k·(k-1)/2` strict-upper-triangle entries of the Pearson correlation matrix
of the `k` expression rows; for `k < 2` it is undefined (NaN, modelled
`none`); for `k ≥ 2`, at least two samples, and no zero-variance (constant)
row it is defined and lies in `[-1, 1]`.  (A constant row makes the
correlations, and hence the median, NaN — which is why the zero-variance
exclusion is required.) -/
theorem median_correlation_spec (s : GOPCASignature) :
    (s.genes.length < 2 → medianCorrelation s = none) ∧
    (upperPairs s.genes.length).length = s.genes.length * (s.genes.length - 1) / 2 ∧
    (2 ≤ s.genes.length → 2 ≤ nsamples s.X →
      (∀ i, i < s.genes.length → sdev s.X i ≠ 0) →
      ∃ r, medianCorrelation s = some r ∧ -1 ≤ r ∧ r ≤ 1) := by
  refine ⟨?_, upperPairs_length _, ?_⟩
  · intro hk
    rw [medianCorrelation]
    rw [upperPairs_lt2 _ hk]
    simp
  · intro hk hn hnd
    have hall : ∀ p ∈ upperPairs s.genes.length,
        ∃ r, corrEntry s.X p.1 p.2 = some r ∧ -1 ≤ r ∧ r ≤ 1 := by
      intro p hp
      obtain ⟨h1, h2⟩ := upperPairs_mem_lt _ p hp
      exact corrEntry_some_bounds s.X p.1 p.2 hn (hnd _ h1) (hnd _ h2)
    have hnone : ((upperPairs s.genes.length).map
        (fun p => corrEntry s.X p.1 p.2)).any (fun v => v.isNone) = false := by
      rw [List.any_eq_false]
      intro v hvv
      rw [List.mem_map] at hvv
      obtain ⟨p, hp, rfl⟩ := hvv
      obtain ⟨r, hr, _, _⟩ := hall p hp
      simp [hr]
    have hlen0 : ((upperPairs s.genes.length).map
        (fun p => corrEntry s.X p.1 p.2)).length ≠ 0 := by
      rw [List.length_map, upperPairs_length]
      have h2 : 2 ≤ s.genes.length * (s.genes.length - 1) := by
        calc (2 : ℕ) = 2 * 1 := rfl
        _ ≤ s.genes.length * (s.genes.length - 1) := Nat.mul_le_mul hk (by omega)
      have h3 : 1 ≤ s.genes.length * (s.genes.length - 1) / 2 :=
        (Nat.le_div_iff_mul_le (by norm_num)).mpr (by omega)
      omega
    have hbounds : ∀ x ∈ ((upperPairs s.genes.length).map
        (fun p => corrEntry s.X p.1 p.2)).map (fun v => v.getD 0),
        -1 ≤ x ∧ x ≤ 1 := by
      intro x hx
      rw [List.mem_map] at hx
      obtain ⟨v, hvv, rfl⟩ := hx
      rw [List.mem_map] at hvv
      obtain ⟨p, hp, rfl⟩ := hvv
      obtain ⟨r, hr, hlo, hhi⟩ := hall p hp
      rw [hr]
      simpa using ⟨hlo, hhi⟩
    have hmm := medianR_mem_Icc (((upperPairs s.genes.length).map
        (fun p => corrEntry s.X p.1 p.2)).map (fun v => v.getD 0))
      (by rw [List.length_map]; exact hlen0) hbounds
    refine ⟨medianR (((upperPairs s.genes.length).map
        (fun p => corrEntry s.X p.1 p.2)).map (fun v => v.getD 0)), ?_, hmm.1, hmm.2⟩
    rw [medianCorrelation, if_neg]
    intro hcond
    rcases hcond with h1 | h2
    · exact hlen0 h1
    · rw [hnone] at h2
      exact Bool.false_ne_true h2

/-- C5 counterexample: `sigConstRow` has `k = 2` genes, but its first
expression row `[1, 1]` is constant, so the single strict-upper-triangle
correlation is NaN and `median_correlation` is NaN (`none`) — not a value in
`[-1, 1]` as the claim states for every signature with `k ≥ 2`. -/
theorem median_correlation_constant_row_cex :
    sigConstRow.genes.length = 2 ∧ medianCorrelation sigConstRow = none := by
  refine ⟨rfl, ?_⟩
  have hcov : covS sigConstRow.X 0 0 = 0 := by
    norm_num [covS, rowMean, entryAt, nsamples, sigConstRow, mkGOPCASignature, npCopy,
      Finset.sum_range_succ]
  have hsd : sdev sigConstRow.X 0 = 0 := by
    rw [sdev, hcov, Real.sqrt_zero]
  have hce : corrEntry sigConstRow.X 0 1 = none := by
    rw [corrEntry, if_pos]
    right
    left
    exact hsd
  rw [medianCorrelation]
  have hup : upperPairs sigConstRow.genes.length = [(0, 1)] := rfl
  rw [hup]
  simp [hce]

/-- C5 witness: `sigCorr1` (rows `[0, 1]` and `[0, 2]`, two samples, no
constant row) has a defined median correlation in `[-1, 1]`. -/
theorem median_correlation_spec_witness :
    ∃ r, medianCorrelation sigCorr1 = some r ∧ -1 ≤ r ∧ r ≤ 1 := by
  have hc0 : covS sigCorr1.X 0 0 = 1 / 2 := by
    norm_num [covS, rowMean, entryAt, nsamples, sigCorr1, mkGOPCASignature, npCopy,
      Finset.sum_range_succ]
  have hc1 : covS sigCorr1.X 1 1 = 2 := by
    norm_num [covS, rowMean, entryAt, nsamples, sigCorr1, mkGOPCASignature, npCopy,
      Finset.sum_range_succ]
  refine (median_correlation_spec sigCorr1).2.2 (by decide) (by decide) ?_
  intro i hi
  have hi2 : i = 0 ∨ i = 1 := by
    have : sigCorr1.genes.length = 2 := rfl
    omega
  rcases hi2 with rfl | rfl
  · rw [sdev, hc0, Real.sqrt_ne_zero']
    norm_num
  · rw [sdev, hc1, Real.sqrt_ne_zero']
    norm_num
